import Mathlib

/-!
Shallow embedding of the cost-query pipeline in `backend/api/azure_costs.py`
(`CostCache`, token caching, `_query_costs`, the aggregation inside
`get_cost_summary`, and `get_forecast`), together with theorems checking the
specification's claims against it.

Modelling conventions:
* Python strings are modelled as `List Char`; Python `str(int)` and `int(str)`
  are modelled by `pyStrInt` / `pyInt` below (decimal digits, optional sign,
  surrounding whitespace, digit-group underscores).
* Python floats are modelled as exact rationals `ℚ`.
* Wall-clock timestamps (`datetime.now()`, `total_seconds()`) are modelled as
  rationals passed explicitly.
* `list.sort(key=..., reverse=...)` (CPython's stable sort) is modelled by the
  stable insertion sort `sSort` with the corresponding boolean comparator.
-/

/-- Value of a decimal digit character, as Python `int` sees it (`'0'` ↦ 0). -/
def charVal (c : Char) : Nat := c.toNat - 48

/-- The character Python prints for the decimal digit `d` (`0` ↦ `'0'`). -/
def digitChar (d : Nat) : Char := Char.ofNat (48 + d)

/-- Fold most-significant-first digit characters into a number, as Python
`int` does once the digit string has been validated. -/
def natVal (l : List Char) : Nat := l.foldl (fun a c => a * 10 + charVal c) 0

/-- Checks the tail of a Python integer literal: decimal digits with single
underscores allowed only between digits. -/
def digitsTail : List Char → Bool
  | [] => true
  | c :: rest =>
    if c = '_' then
      match rest with
      | [] => false
      | c2 :: rest2 => c2.isDigit && digitsTail rest2
    else c.isDigit && digitsTail rest

/-- Parses an unsigned run of digits as Python `int` does (nonempty, digits
with optional single underscores between them), returning its value. -/
def pyIntDigits : List Char → Option Nat
  | [] => none
  | c :: rest =>
    if c.isDigit && digitsTail rest then
      some (natVal ((c :: rest).filter (fun x => x ≠ '_')))
    else none

/-- Python `int(s)` on a string modelled as a character list: strip
whitespace, allow one leading sign, then a digit run; `none` models the
`ValueError` Python raises on anything else. -/
def pyInt (s : List Char) : Option Int :=
  let t := ((s.dropWhile Char.isWhitespace).reverse.dropWhile Char.isWhitespace).reverse
  match t with
  | [] => none
  | c :: rest =>
    if c = '-' then (pyIntDigits rest).map (fun n => -(n : Int))
    else if c = '+' then (pyIntDigits rest).map (fun n => (n : Int))
    else (pyIntDigits (c :: rest)).map (fun n => (n : Int))

/-- Least-significant-first decimal digits, by structural recursion on a
fuel bound so the kernel can evaluate it; agrees with `Nat.digits 10` (see
`digitsRev_eq_digits`). -/
def digitsRevAux : Nat → Nat → List Nat
  | _, 0 => []
  | 0, _ + 1 => []
  | fuel + 1, n + 1 => ((n + 1) % 10) :: digitsRevAux fuel ((n + 1) / 10)

/-- Least-significant-first decimal digits of `n`. -/
def digitsRev (n : Nat) : List Nat := digitsRevAux n n

/-- Python `str(n)` for a natural number: most-significant-first decimal
digits (`digitsRev` is least-significant-first, hence the reverse). -/
def pyStrNat (n : Nat) : List Char :=
  if n = 0 then ['0'] else ((digitsRev n).map digitChar).reverse

/-- Python `str(i)` for an integer: optional minus sign, then the digits. -/
def pyStrInt (i : Int) : List Char :=
  if i < 0 then '-' :: pyStrNat i.natAbs else pyStrNat i.toNat

/-- In-memory TTL cache of `azure_costs.CostCache`: a time-to-live plus a map
from string keys to (timestamp, value) pairs (the Python dict). -/
structure CostCache (V : Type) where
  ttl : ℚ
  store : List Char → Option (ℚ × V)

/-- `CostCache.get`: if the key is present and younger than the TTL, return
the stored value; if present but expired, delete the entry and return `None`;
otherwise return `None`.  The current time is passed explicitly (Python reads
`datetime.now()`). -/
def CostCache.get (c : CostCache V) (now : ℚ) (key : List Char) :
    Option V × CostCache V :=
  match c.store key with
  | some (timestamp, value) =>
    if now - timestamp < c.ttl then (some value, c)
    else (none, { c with store := fun k => if k = key then none else c.store k })
  | none => (none, c)

/-- `CostCache.set`: unconditionally overwrite the entry for the key with the
value stamped at the current time. -/
def CostCache.set (c : CostCache V) (now : ℚ) (key : List Char) (v : V) :
    CostCache V :=
  { c with store := fun k => if k = key then some (now, v) else c.store k }

/-- One call of `AzureCostService._get_token`: given the stored token slot and
the token the credential provider would currently hand out, return the token
the call yields, the new slot, and whether the provider was actually
contacted (`self.credential.get_token` called). -/
def getTokenStep (st : Option String) (fresh : String) :
    String × Option String × Bool :=
  match st with
  | none => (fresh, some fresh, true)
  | some t => (t, some t, false)

/-- Iterated calls of `_get_token`, threading the token slot; `freshes` lists
the token the provider would return at each call.  Yields the per-call
(token, provider-contacted) pairs and the final slot. -/
def runTokens (st : Option String) : List String → List (String × Bool) × Option String
  | [] => ([], st)
  | f :: fs =>
    let r := getTokenStep st f
    let rest := runTokens r.2.1 fs
    ((r.1, r.2.2) :: rest.1, rest.2)

/-- The token slot as `AzureCostService.__init__` leaves it (`self._token = None`). -/
def initTokenSlot : Option String := none

/-- One scripted HTTP response for `_query_costs`: its status code, the raw
`Retry-After` header if present, and the value `response.json()` would parse
to on success. -/
structure Response (V : Type) where
  status : Nat
  retryAfter : Option (List Char)
  body : V
deriving DecidableEq

/-- Outcome of `_query_costs`: a returned parsed body, the post-loop
`return {}`, an `httpx.HTTPStatusError` from `raise_for_status`, or the
`ValueError` from `int()` on a bad `Retry-After` header. -/
inductive QueryOutcome (V : Type) where
  | ok (v : V)
  | empty
  | httpStatusError (status : Nat)
  | valueError
  | exhaustedScript
deriving DecidableEq

/-- Value of `int(response.headers.get("Retry-After", 60))`: 60 when the
header is absent, else Python `int` of the header string (`none` models the
`ValueError`). -/
def retryAfterVal (h : Option (List Char)) : Option Int :=
  match h with
  | none => some 60
  | some s => pyInt s

/-- The retry loop of `_query_costs`, by remaining attempts (`rem` is
`max_retries - attempt`); each loop iteration consumes the next scripted
response.  On a 429 it parses `Retry-After`, and only when this is not the
last attempt does it sleep and continue; otherwise it falls through to
`raise_for_status`, which raises on any non-2xx status.  Returns the outcome
together with the list of sleep durations performed. -/
def queryGo : List (Response V) → Nat → QueryOutcome V × List Int
  | _, 0 => (.empty, [])
  | [], _ + 1 => (.exhaustedScript, [])
  | r :: rest, rem + 1 =>
    if r.status = 429 then
      match retryAfterVal r.retryAfter with
      | none => (.valueError, [])
      | some ra =>
        if rem > 0 then
          let p := queryGo rest rem
          (p.1, ra :: p.2)
        else (.httpStatusError 429, [])
    else if 200 ≤ r.status ∧ r.status < 300 then (.ok r.body, [])
    else (.httpStatusError r.status, [])

/-- `_query_costs(query_body, max_retries)` against a script of responses,
one per attempt the loop would make. -/
def queryCosts (resps : List (Response V)) (max_retries : Nat) :
    QueryOutcome V × List Int :=
  queryGo resps max_retries

/-- A calendar date as `datetime.date`: year, month, day. -/
structure Date where
  year : Nat
  month : Nat
  day : Nat
deriving DecidableEq

/-- Gregorian leap-year test used by `datetime.date`. -/
def isLeap (y : Nat) : Bool := y % 4 = 0 && (y % 100 != 0 || y % 400 = 0)

/-- Length of a month in the proleptic Gregorian calendar of `datetime`. -/
def daysInMonth (y m : Nat) : Nat :=
  if m = 2 then (if isLeap y then 29 else 28)
  else if m = 4 ∨ m = 6 ∨ m = 9 ∨ m = 11 then 30
  else 31

/-- The `datetime.date(y, m, d)` constructor with its validation: year in
1..9999, month in 1..12, day within the month; `none` models the
`ValueError` raised otherwise. -/
def mkDate (y m d : Int) : Option Date :=
  if 1 ≤ y ∧ y ≤ 9999 ∧ 1 ≤ m ∧ m ≤ 12 ∧ 1 ≤ d ∧ d ≤ daysInMonth y.toNat m.toNat
  then some ⟨y.toNat, m.toNat, d.toNat⟩ else none

/-- Successor day in the calendar (one day of `timedelta` addition). -/
def nextDay (d : Date) : Date :=
  if d.day < daysInMonth d.year d.month then { d with day := d.day + 1 }
  else if d.month < 12 then { d with month := d.month + 1, day := 1 }
  else { year := d.year + 1, month := 1, day := 1 }

/-- Predecessor day in the calendar (one day of `timedelta` subtraction). -/
def prevDay (d : Date) : Date :=
  if 1 < d.day then { d with day := d.day - 1 }
  else if 1 < d.month then { d with month := d.month - 1, day := daysInMonth d.year (d.month - 1) }
  else { year := d.year - 1, month := 12, day := 31 }

/-- `date + timedelta(days=n)`. -/
def addDays (d : Date) : Nat → Date
  | 0 => d
  | n + 1 => nextDay (addDays d n)

/-- `date - timedelta(days=n)`. -/
def subDays (d : Date) : Nat → Date
  | 0 => d
  | n + 1 => prevDay (subDays d n)

/-- The end-of-month computation of `get_forecast`:
`today.replace(day=28) + timedelta(days=4)`, then
`.replace(day=1) - timedelta(days=1)`. -/
def lastDayOfMonth (today : Date) : Date :=
  let a := addDays { today with day := 28 } 4
  subDays { a with day := 1 } 1

/-- Ordering of `datetime.date` values: lexicographic on (year, month, day). -/
def dateLe (a b : Date) : Bool :=
  decide (a.year < b.year) ||
    (decide (a.year = b.year) &&
      (decide (a.month < b.month) ||
        (decide (a.month = b.month) && decide (a.day ≤ b.day))))

/-- Insert into a sorted list, keeping the new element before the first
element it compares `le` to; together with `sSort` this is the stable sort
semantics of CPython's `list.sort`. -/
def sInsert (le : α → α → Bool) (x : α) : List α → List α
  | [] => [x]
  | y :: ys => if le x y then x :: y :: ys else y :: sInsert le x ys

/-- Stable insertion sort modelling `list.sort` with comparator `le`
(`le a b` means a may come before b). -/
def sSort (le : α → α → Bool) : List α → List α
  | [] => []
  | x :: xs => sInsert le x (sSort le xs)

/-- One row of the service-grouped query result: `[cost, service_name]` with
an optional trailing currency column. -/
structure ServiceRow where
  cost : ℚ
  service_name : String
  currency : Option String
deriving DecidableEq

/-- The `row[1]` value of a daily-granularity row: either a JSON integer or a
JSON string (`isinstance(date_val, int)` distinguishes them). -/
inductive DateVal where
  | i (n : Int)
  | s (str : List Char)
deriving DecidableEq

/-- One row of the daily-granularity query result: `[cost, date]`. -/
structure DailyRow where
  cost : ℚ
  dateVal : DateVal
deriving DecidableEq

/-- `models.CostByService`. -/
structure CostByService where
  service_name : String
  cost : ℚ
  currency : String
deriving DecidableEq

/-- `models.DailyCost` (the `currency` field keeps its pydantic default). -/
structure DailyCost where
  date : Date
  cost : ℚ
  currency : String
deriving DecidableEq

/-- `models.CostSummary`. -/
structure CostSummary where
  subscription_id : String
  subscription_name : String
  period_start : Date
  period_end : Date
  total_cost : ℚ
  currency : String
  costs_by_service : List CostByService
  daily_costs : List DailyCost
deriving DecidableEq

/-- `models.CostForecast`. -/
structure CostForecast where
  subscription_id : String
  forecast_period_end : Date
  estimated_total : ℚ
  currency : String
deriving DecidableEq

/-- The `CostByService` entry built from one service row:
`CostByService(service_name=row[1], cost=row[0], currency=row[2] if len(row) > 2 else "USD")`. -/
def svcEntry (r : ServiceRow) : CostByService :=
  { service_name := r.service_name, cost := r.cost,
    currency := match r.currency with | some c => c | none => "USD" }

/-- The service-row parsing loop of `get_cost_summary`: append one
`CostByService` per row and accumulate `total_cost` as a running sum. -/
def parseServiceRows (rows : List ServiceRow) : List CostByService × ℚ :=
  rows.foldl (fun acc row => (acc.1 ++ [svcEntry row], acc.2 + row.cost)) ([], 0)

/-- Normalization of a daily row's date value, as `get_cost_summary` does it:
an integer goes through `str` and positional slicing into `date(y, m, d)`; a
string goes through `date.fromisoformat(str(val)[:10])`.  The ISO parser is
modelled for the dashed `YYYY-MM-DD` prefix form the billing API produces. -/
def fromisoformat10 (s : List Char) : Option Date :=
  match s.take 10 with
  | [y1, y2, y3, y4, h1, m1, m2, h2, d1, d2] =>
    if h1 = '-' && h2 = '-' && y1.isDigit && y2.isDigit && y3.isDigit && y4.isDigit
        && m1.isDigit && m2.isDigit && d1.isDigit && d2.isDigit then
      mkDate (charVal y1 * 1000 + charVal y2 * 100 + charVal y3 * 10 + charVal y4)
        (charVal m1 * 10 + charVal m2) (charVal d1 * 10 + charVal d2)
    else none
  | _ => none

/-- Date normalization for one daily row (`row[1]` in the daily parsing loop
of `get_cost_summary`). -/
def parseDateVal : DateVal → Option Date
  | .i n =>
    let date_str := pyStrInt n
    match pyInt (date_str.take 4), pyInt ((date_str.drop 4).take 2),
        pyInt ((date_str.drop 6).take 2) with
    | some y, some m, some d => mkDate y m d
    | _, _, _ => none
  | .s str => fromisoformat10 str

/-- The daily-row parsing loop of `get_cost_summary`: one `DailyCost` per
row, in row order; `none` models the exception a bad date raises. -/
def parseDailyRows (rows : List DailyRow) : Option (List DailyCost) :=
  rows.mapM (fun r => (parseDateVal r.dateVal).map
    (fun d => { date := d, cost := r.cost, currency := "USD" }))

/-- Comparator of `costs_by_service.sort(key=lambda x: x.cost, reverse=True)`:
stable sort with all comparisons reversed. -/
def costDescLe (a b : CostByService) : Bool := decide (b.cost ≤ a.cost)

/-- Comparator of `daily_costs.sort(key=lambda x: x.date)`. -/
def dailyAscLe (a b : DailyCost) : Bool := dateLe a.date b.date

/-- The aggregation part of `get_cost_summary` (its cache-miss path after the
two queries returned): parse service rows, parse daily rows, sort both, and
build the `CostSummary`. -/
def buildCostSummary (sub : String) (period_start period_end : Date)
    (serviceRows : List ServiceRow) (dailyRows : List DailyRow) :
    Option CostSummary :=
  let p := parseServiceRows serviceRows
  match parseDailyRows dailyRows with
  | none => none
  | some dl =>
    some { subscription_id := sub, subscription_name := "virtual-bpm-prod",
           period_start := period_start, period_end := period_end,
           total_cost := p.2, currency := "USD",
           costs_by_service := sSort costDescLe p.1,
           daily_costs := sSort dailyAscLe dl }

/-- Round-half-to-even of a rational to an integer, the rounding Python's
builtin `round` applies. -/
def rhalfEven (q : ℚ) : Int :=
  let f := ⌊q⌋
  let frac := q - f
  if frac < 1 / 2 then f else if 1 / 2 < frac then f + 1
  else if f % 2 = 0 then f else f + 1

/-- Python `round(x, 2)`. -/
def round2 (q : ℚ) : ℚ := (rhalfEven (q * 100) : ℚ) / 100

/-- `rows[0][0] if rows else 0.0` in `get_forecast`; `none` models the
`IndexError` an empty first row would raise. -/
def currentCostOf (rows : List (List ℚ)) : Option ℚ :=
  match rows with
  | [] => some 0
  | r :: _ => r.head?

/-- The computation of `get_forecast` (its cache-miss path after the
month-to-date query returned `rows`), for a given current date. -/
def get_forecast (sub : String) (today : Date) (rows : List (List ℚ)) :
    Option CostForecast :=
  let end_of_month := lastDayOfMonth today
  match currentCostOf rows with
  | none => none
  | some current_cost =>
    let days_elapsed := today.day
    let days_in_month := end_of_month.day
    let estimated_total : ℚ :=
      if days_elapsed > 0 then current_cost / days_elapsed * days_in_month else 0
    some { subscription_id := sub, forecast_period_end := end_of_month,
           estimated_total := round2 estimated_total, currency := "USD" }

/-- The cache key f-string of `get_cost_summary` (`"costs_" + str(days)`),
as a character list. -/
def costsCacheKey (days : Int) : List Char :=
  'c' :: 'o' :: 's' :: 't' :: 's' :: '_' :: pyStrInt days

/-- The cache key of `get_forecast`. -/
def forecastCacheKey : List Char := ['f', 'o', 'r', 'e', 'c', 'a', 's', 't']

/-- The zero-padded ISO `YYYY-MM-DD` rendering of a calendar date
(`date.isoformat()`), used to build string-typed date inputs. -/
def isoChars (y m d : Nat) : List Char :=
  [digitChar (y / 1000 % 10), digitChar (y / 100 % 10),
   digitChar (y / 10 % 10), digitChar (y % 10), '-',
   digitChar (m / 10 % 10), digitChar (m % 10), '-',
   digitChar (d / 10 % 10), digitChar (d % 10)]

unseal Rat.add Rat.mul Rat.sub Rat.inv Rat.ofScientific

theorem sInsert_perm (le : α → α → Bool) (x : α) :
    ∀ l : List α, (sInsert le x l).Perm (x :: l)
  | [] => List.Perm.refl _
  | y :: ys => by
    by_cases h : le x y = true
    · simp [sInsert, h]
    · simp only [sInsert, h, if_neg, Bool.not_eq_true]
      exact ((sInsert_perm le x ys).cons y).trans (List.Perm.swap x y ys)

theorem sSort_perm (le : α → α → Bool) : ∀ l : List α, (sSort le l).Perm l
  | [] => List.Perm.refl _
  | x :: xs =>
    (sInsert_perm le x (sSort le xs)).trans ((sSort_perm le xs).cons x)

theorem sInsert_pairwise (le : α → α → Bool)
    (htot : ∀ a b, le a b = true ∨ le b a = true)
    (htr : ∀ a b c, le a b = true → le b c = true → le a c = true) (x : α) :
    ∀ l : List α, l.Pairwise (fun a b => le a b = true) →
      (sInsert le x l).Pairwise (fun a b => le a b = true)
  | [], _ => by simp [sInsert]
  | y :: ys, h => by
    rcases List.pairwise_cons.mp h with ⟨hy, hys⟩
    by_cases hxy : le x y = true
    · rw [sInsert, if_pos hxy]
      refine List.pairwise_cons.mpr ⟨?_, h⟩
      intro z hz
      rcases List.mem_cons.mp hz with rfl | hz2
      · exact hxy
      · exact htr x y z hxy (hy z hz2)
    · have hyx : le y x = true := (htot x y).resolve_left hxy
      rw [sInsert, if_neg hxy]
      refine List.pairwise_cons.mpr ⟨?_, sInsert_pairwise le htot htr x ys hys⟩
      intro z hz
      have hz2 := (sInsert_perm le x ys).mem_iff.mp hz
      rcases List.mem_cons.mp hz2 with rfl | hz3
      · exact hyx
      · exact hy z hz3

theorem sSort_pairwise (le : α → α → Bool)
    (htot : ∀ a b, le a b = true ∨ le b a = true)
    (htr : ∀ a b c, le a b = true → le b c = true → le a c = true) :
    ∀ l : List α, (sSort le l).Pairwise (fun a b => le a b = true)
  | [] => by simp [sSort]
  | x :: xs =>
    sInsert_pairwise le htot htr x (sSort le xs) (sSort_pairwise le htot htr xs)

theorem sInsert_filter (le : α → α → Bool) (p : α → Bool) (x : α)
    (hx : ∀ b, p x = true → p b = true → le x b = true) :
    ∀ l : List α, (sInsert le x l).filter p = ((x :: l).filter p)
  | [] => rfl
  | y :: ys => by
    by_cases hxy : le x y = true
    · simp [sInsert, hxy]
    · have hrec := sInsert_filter le p x hx ys
      by_cases hpy : p y = true
      · by_cases hpx : p x = true
        · exact absurd (hx y hpx hpy) hxy
        · simp [sInsert, hxy, List.filter, hpx, hpy, hrec]
      · simp [sInsert, hxy, List.filter, hpy, hrec]

theorem sSort_filter (le : α → α → Bool) (p : α → Bool)
    (hp : ∀ a b, p a = true → p b = true → le a b = true) :
    ∀ l : List α, (sSort le l).filter p = l.filter p
  | [] => rfl
  | x :: xs => by
    have h1 := sInsert_filter le p x (fun b hb => hp x b hb) (sSort le xs)
    have h2 := sSort_filter le p hp xs
    by_cases hpx : p x = true
    · simp [sSort, h1, List.filter, hpx, h2]
    · simp [sSort, h1, List.filter, hpx, h2]

/-- C2: a value stored at time `s` and read at time `s + e` is returned iff
the elapsed time `e` is below the TTL; otherwise the read returns absent and
deletes that entry; the TTL and every other key's entry are untouched by the
read. -/
theorem claim_C2_cache_ttl_dichotomy (V : Type) (c : CostCache V) (s e : ℚ)
    (k : List Char) (v : V) :
    ((CostCache.get (CostCache.set c s k v) (s + e) k).1 = some v ↔ e < c.ttl)
    ∧ (((CostCache.get (CostCache.set c s k v) (s + e) k).1 = none
        ∧ (CostCache.get (CostCache.set c s k v) (s + e) k).2.store k = none)
        ↔ c.ttl ≤ e)
    ∧ (CostCache.get (CostCache.set c s k v) (s + e) k).2.ttl = c.ttl
    ∧ ∀ k2, k2 = k ∨ (CostCache.get (CostCache.set c s k v) (s + e) k).2.store k2
        = (CostCache.set c s k v).store k2 := by
  by_cases he : e < c.ttl
  · refine ⟨?_, ?_, ?_, fun k2 => Or.inr ?_⟩
    · simp [CostCache.get, CostCache.set, add_sub_cancel_left, he]
    · simp [CostCache.get, CostCache.set, add_sub_cancel_left, he, not_le.mpr he]
    · simp [CostCache.get, CostCache.set, add_sub_cancel_left, he]
    · simp [CostCache.get, CostCache.set, add_sub_cancel_left, he]
  · refine ⟨?_, ?_, ?_, fun k2 => ?_⟩
    · simp [CostCache.get, CostCache.set, add_sub_cancel_left, he]
    · simp [CostCache.get, CostCache.set, add_sub_cancel_left, he, not_lt.mp he]
    · simp [CostCache.get, CostCache.set, add_sub_cancel_left, he]
    · by_cases hk2 : k2 = k
      · exact Or.inl hk2
      · exact Or.inr (by
          simp [CostCache.get, CostCache.set, add_sub_cancel_left, he, hk2])

/-- C8: once `_get_token` has fetched a token, every later call returns that
same string, never contacts the credential provider again, and leaves the
stored token unchanged; the first call on the empty slot fetches. -/
theorem claim_C8_token_never_refreshed (f : String) (freshes : List String) :
    getTokenStep initTokenSlot f = (f, some f, true)
    ∧ runTokens (some f) freshes
        = (freshes.map (fun _ => (f, false)), some f) := by
  refine ⟨rfl, ?_⟩
  induction freshes with
  | nil => rfl
  | cons g gs ih => simp [runTokens, getTokenStep, ih]

/-- C1: with the default three attempts all answered by 429 (no Retry-After
header), `_query_costs` raises `HTTPStatusError` on the final attempt after
sleeping twice, rather than returning the empty dict the post-loop
`return {}` would produce; that line is unreachable once the loop runs. -/
theorem claim_C1_all429_raises_not_empty :
    queryCosts ([⟨429, none, ()⟩, ⟨429, none, ()⟩, ⟨429, none, ()⟩] :
        List (Response Unit)) 3
      = (QueryOutcome.httpStatusError 429, [60, 60])
    ∧ queryCosts ([⟨429, none, ()⟩, ⟨429, none, ()⟩, ⟨429, none, ()⟩] :
        List (Response Unit)) 3
      ≠ (QueryOutcome.empty, [60, 60]) := by
  exact ⟨rfl, by decide⟩

theorem queryGo_skip_429 (V : Type) :
    ∀ (pre rest : List (Response V)) (rem : Nat),
      (∀ p ∈ pre, p.status = 429) →
      (∀ p ∈ pre, (retryAfterVal p.retryAfter).isSome = true) →
      pre.length < rem →
      queryGo (pre ++ rest) rem
        = ((queryGo rest (rem - pre.length)).1,
            pre.map (fun p => (retryAfterVal p.retryAfter).getD 0)
              ++ (queryGo rest (rem - pre.length)).2)
  | [], rest, rem, _, _, _ => by simp
  | p :: ps, rest, rem, h429, hra, hlen => by
    obtain ⟨rem2, rfl⟩ : ∃ rem2, rem = rem2 + 1 :=
      ⟨rem - 1, by omega⟩
    have hp : p.status = 429 := h429 p (List.mem_cons_self p ps)
    obtain ⟨ra, hrap⟩ : ∃ ra, retryAfterVal p.retryAfter = some ra :=
      Option.isSome_iff_exists.mp (hra p (List.mem_cons_self p ps))
    have hlen2 : ps.length < rem2 := by
      simpa using Nat.lt_of_succ_lt_succ (by simpa using hlen)
    have hrem2 : rem2 > 0 := Nat.lt_of_le_of_lt (Nat.zero_le _) hlen2
    have ih := queryGo_skip_429 V ps rest rem2
      (fun q hq => h429 q (List.mem_cons_of_mem p hq))
      (fun q hq => hra q (List.mem_cons_of_mem p hq)) hlen2
    simp only [List.cons_append, queryGo, hp, if_pos rfl, hrap, if_pos hrem2]
    simp only [List.append_eq, if_true]
    rw [ih]
    simp [hrap, Nat.succ_sub_succ]

/-- C3: `_query_costs` retries exactly on 429 — any run of 429 responses
shorter than the attempt bound is followed by one sleep per 429 of the parsed
`Retry-After` duration (60 when the header is absent, by `retryAfterVal`),
and a subsequent 2xx yields its parsed JSON body; a non-429 error status
raises immediately with that status, with no further attempts. -/
theorem claim_C3_retry_on_429_only (V : Type) (pre : List (Response V))
    (r : Response V) (rest : List (Response V)) (mr : Nat)
    (h429 : ∀ p ∈ pre, p.status = 429)
    (hra : ∀ p ∈ pre, (retryAfterVal p.retryAfter).isSome = true)
    (hlen : pre.length < mr) :
    (200 ≤ r.status → r.status < 300 →
      queryCosts (pre ++ r :: rest) mr
        = (.ok r.body, pre.map (fun p => (retryAfterVal p.retryAfter).getD 0)))
    ∧ (r.status ≠ 429 → ¬(200 ≤ r.status ∧ r.status < 300) →
      queryCosts (pre ++ r :: rest) mr
        = (.httpStatusError r.status,
            pre.map (fun p => (retryAfterVal p.retryAfter).getD 0)))
    ∧ retryAfterVal none = some 60 := by
  obtain ⟨k, hk⟩ : ∃ k, mr - pre.length = k + 1 := ⟨mr - pre.length - 1, by omega⟩
  have hskip := queryGo_skip_429 V pre (r :: rest) mr h429 hra hlen
  refine ⟨fun h1 h2 => ?_, fun hne h2 => ?_, rfl⟩
  · have hne : ¬r.status = 429 := by omega
    rw [queryCosts, hskip, hk]
    simp [queryGo, hne, h1, h2]
  · rw [queryCosts, hskip, hk]
    simp only [queryGo, if_neg hne]
    rw [if_neg h2]
    simp

theorem claim_C3_retry_on_429_only_witness :
    (∀ p ∈ ([⟨429, some "5".toList, 0⟩] : List (Response Nat)), p.status = 429)
    ∧ ([(⟨429, some "5".toList, 0⟩ : Response Nat)].length < 3)
    ∧ queryCosts
        ([⟨429, some "5".toList, 0⟩] ++ (⟨200, none, 7⟩ : Response Nat) :: []) 3
        = (.ok 7, [5]) := by
  refine ⟨by decide, by decide, ?_⟩
  have h := (claim_C3_retry_on_429_only Nat [⟨429, some "5".toList, 0⟩]
    ⟨200, none, 7⟩ [] 3 (by decide) (by decide) (by decide)).1
    (by decide) (by decide)
  simpa using h

/-- C10: a 429 response whose `Retry-After` header is present but not a
Python-integer string makes `_query_costs` raise `ValueError` from `int()`
before any sleep or retry, whatever attempts remain. -/
theorem claim_C10_nonint_retry_after_raises (V : Type) (r : Response V)
    (rest : List (Response V)) (mr : Nat) (b : List Char)
    (hs : r.status = 429) (hh : r.retryAfter = some b)
    (hbad : pyInt b = none) (hmr : 1 ≤ mr) :
    queryCosts (r :: rest) mr = (.valueError, []) := by
  obtain ⟨k, rfl⟩ : ∃ k, mr = k + 1 := ⟨mr - 1, by omega⟩
  have hval : retryAfterVal r.retryAfter = none := by
    rw [hh]; exact hbad
  simp [queryCosts, queryGo, hs, hval]

theorem claim_C10_nonint_retry_after_raises_witness :
    (pyInt "Wed, 21 Oct 2015 07:28:00 GMT".toList = none)
    ∧ queryCosts
        ([⟨429, some "Wed, 21 Oct 2015 07:28:00 GMT".toList, 0⟩] :
          List (Response Nat)) 3
        = (.valueError, []) := by
  refine ⟨by decide, ?_⟩
  exact claim_C10_nonint_retry_after_raises Nat
    ⟨429, some "Wed, 21 Oct 2015 07:28:00 GMT".toList, 0⟩ [] 3
    ("Wed, 21 Oct 2015 07:28:00 GMT".toList) rfl rfl (by decide) (by decide)

theorem parseServiceRows_go :
    ∀ (rows : List ServiceRow) (a : List CostByService) (t : ℚ),
      rows.foldl (fun acc row => (acc.1 ++ [svcEntry row], acc.2 + row.cost)) (a, t)
        = (a ++ rows.map svcEntry, t + (rows.map (fun r => r.cost)).sum)
  | [], a, t => by simp
  | row :: rows, a, t => by
    simp only [List.foldl_cons, parseServiceRows_go rows, List.map_cons,
      List.sum_cons]
    simp [List.append_assoc, add_assoc]

theorem parseServiceRows_eq (rows : List ServiceRow) :
    parseServiceRows rows
      = (rows.map svcEntry, (rows.map (fun r => r.cost)).sum) := by
  have h := parseServiceRows_go rows [] 0
  simpa [parseServiceRows] using h

theorem sSort_map_sum (le : CostByService → CostByService → Bool)
    (l : List CostByService) :
    ((sSort le l).map (fun e => e.cost)).sum = (l.map (fun e => e.cost)).sum :=
  ((sSort_perm le l).map (fun e => e.cost)).sum_eq

/-- C4: for every service-row input the produced summary has `total_cost`
exactly equal to the sum of the costs in `costs_by_service`, and the daily
rows play no role in `total_cost`. -/
theorem claim_C4_total_is_sum (sub : String) (period_start period_end : Date)
    (serviceRows : List ServiceRow) (dailyRows dailyRows2 : List DailyRow)
    (s s2 : CostSummary)
    (h : buildCostSummary sub period_start period_end serviceRows dailyRows = some s)
    (h2 : buildCostSummary sub period_start period_end serviceRows dailyRows2 = some s2) :
    s.total_cost = (s.costs_by_service.map (fun e => e.cost)).sum
    ∧ s.total_cost = s2.total_cost := by
  cases hd : parseDailyRows dailyRows with
  | none => rw [buildCostSummary] at h; simp [hd] at h
  | some dl =>
    cases hd2 : parseDailyRows dailyRows2 with
    | none => rw [buildCostSummary] at h2; simp [hd2] at h2
    | some dl2 =>
      rw [buildCostSummary] at h h2
      simp only [hd, Option.some.injEq] at h
      simp only [hd2, Option.some.injEq] at h2
      refine ⟨?_, by rw [← h, ← h2]⟩
      rw [← h]
      simp only [sSort_map_sum, parseServiceRows_eq, List.map_map]
      have hcomp : ((fun e : CostByService => e.cost) ∘ svcEntry)
          = fun r : ServiceRow => r.cost := rfl
      rw [hcomp]

theorem claim_C4_total_is_sum_witness :
    (buildCostSummary "sub" ⟨2024, 1, 1⟩ ⟨2024, 1, 31⟩
        [⟨120.5, "Compute", none⟩, ⟨30, "Storage", none⟩]
        [⟨10, .i 20240102⟩, ⟨5, .i 20240101⟩]
      = some { subscription_id := "sub", subscription_name := "virtual-bpm-prod",
               period_start := ⟨2024, 1, 1⟩, period_end := ⟨2024, 1, 31⟩,
               total_cost := 150.5, currency := "USD",
               costs_by_service :=
                 [⟨"Compute", 120.5, "USD"⟩, ⟨"Storage", 30, "USD"⟩],
               daily_costs :=
                 [⟨⟨2024, 1, 1⟩, 5, "USD"⟩, ⟨⟨2024, 1, 2⟩, 10, "USD"⟩] })
    ∧ (150.5 : ℚ)
        = ([⟨"Compute", (120.5 : ℚ), "USD"⟩,
            (⟨"Storage", 30, "USD"⟩ : CostByService)].map (fun e => e.cost)).sum := by
  constructor
  · decide
  · have h := (claim_C4_total_is_sum "sub" ⟨2024, 1, 1⟩ ⟨2024, 1, 31⟩
      [⟨120.5, "Compute", none⟩, ⟨30, "Storage", none⟩]
      [⟨10, .i 20240102⟩, ⟨5, .i 20240101⟩]
      [⟨10, .i 20240102⟩, ⟨5, .i 20240101⟩]
      { subscription_id := "sub", subscription_name := "virtual-bpm-prod",
        period_start := ⟨2024, 1, 1⟩, period_end := ⟨2024, 1, 31⟩,
        total_cost := 150.5, currency := "USD",
        costs_by_service :=
          [⟨"Compute", 120.5, "USD"⟩, ⟨"Storage", 30, "USD"⟩],
        daily_costs :=
          [⟨⟨2024, 1, 1⟩, 5, "USD"⟩, ⟨⟨2024, 1, 2⟩, 10, "USD"⟩] }
      { subscription_id := "sub", subscription_name := "virtual-bpm-prod",
        period_start := ⟨2024, 1, 1⟩, period_end := ⟨2024, 1, 31⟩,
        total_cost := 150.5, currency := "USD",
        costs_by_service :=
          [⟨"Compute", 120.5, "USD"⟩, ⟨"Storage", 30, "USD"⟩],
        daily_costs :=
          [⟨⟨2024, 1, 1⟩, 5, "USD"⟩, ⟨⟨2024, 1, 2⟩, 10, "USD"⟩] }
      (by decide) (by decide)).1
    simpa using h

theorem costDescLe_total (a b : CostByService) :
    costDescLe a b = true ∨ costDescLe b a = true := by
  simp only [costDescLe, decide_eq_true_eq]
  exact le_total b.cost a.cost

theorem costDescLe_trans (a b c : CostByService) :
    costDescLe a b = true → costDescLe b c = true → costDescLe a c = true := by
  simp only [costDescLe, decide_eq_true_eq]
  exact fun h1 h2 => le_trans h2 h1

/-- C5: for every input, `costs_by_service` is sorted by cost descending and,
restricted to any single cost value, lists the rows in encounter order
(stability of the reverse sort), including ties and negative costs. -/
theorem claim_C5_sorted_desc_stable (sub : String) (period_start period_end : Date)
    (serviceRows : List ServiceRow) (dailyRows : List DailyRow)
    (s : CostSummary) (q : ℚ)
    (h : buildCostSummary sub period_start period_end serviceRows dailyRows = some s) :
    s.costs_by_service.Pairwise (fun a b => b.cost ≤ a.cost)
    ∧ s.costs_by_service.filter (fun e => decide (e.cost = q))
        = (serviceRows.filter (fun r => decide (r.cost = q))).map svcEntry := by
  cases hd : parseDailyRows dailyRows with
  | none => rw [buildCostSummary] at h; simp [hd] at h
  | some dl =>
    rw [buildCostSummary] at h
    simp only [hd, Option.some.injEq] at h
    have hsvc : s.costs_by_service
        = sSort costDescLe (serviceRows.map svcEntry) := by
      rw [← h]
      simp [parseServiceRows_eq]
    constructor
    · rw [hsvc]
      have hp := sSort_pairwise costDescLe costDescLe_total costDescLe_trans
        (serviceRows.map svcEntry)
      exact hp.imp (fun hab => by
        simpa [costDescLe, decide_eq_true_eq] using hab)
    · rw [hsvc]
      have hstab := sSort_filter costDescLe (fun e => decide (e.cost = q))
        (fun a b ha hb => by
          simp only [decide_eq_true_eq] at ha hb
          simp [costDescLe, ha, hb])
        (serviceRows.map svcEntry)
      rw [hstab, List.filter_map]
      rfl

theorem claim_C5_sorted_desc_stable_witness :
    (buildCostSummary "sub" ⟨2024, 1, 1⟩ ⟨2024, 1, 31⟩
        [⟨5, "A", none⟩, ⟨-1, "B", none⟩, ⟨5, "C", none⟩] []
      = some { subscription_id := "sub", subscription_name := "virtual-bpm-prod",
               period_start := ⟨2024, 1, 1⟩, period_end := ⟨2024, 1, 31⟩,
               total_cost := 9, currency := "USD",
               costs_by_service :=
                 [⟨"A", 5, "USD"⟩, ⟨"C", 5, "USD"⟩, ⟨"B", -1, "USD"⟩],
               daily_costs := [] })
    ∧ ([(⟨"A", 5, "USD"⟩ : CostByService), ⟨"C", 5, "USD"⟩,
          ⟨"B", -1, "USD"⟩].Pairwise (fun a b => b.cost ≤ a.cost)
        ∧ [(⟨"A", 5, "USD"⟩ : CostByService), ⟨"C", 5, "USD"⟩,
            ⟨"B", -1, "USD"⟩].filter (fun e => decide (e.cost = 5))
          = ([(⟨5, "A", none⟩ : ServiceRow), ⟨-1, "B", none⟩,
              ⟨5, "C", none⟩].filter (fun r => decide (r.cost = 5))).map svcEntry) := by
  refine ⟨by decide, ?_⟩
  exact claim_C5_sorted_desc_stable "sub" ⟨2024, 1, 1⟩ ⟨2024, 1, 31⟩
    [⟨5, "A", none⟩, ⟨-1, "B", none⟩, ⟨5, "C", none⟩] []
    { subscription_id := "sub", subscription_name := "virtual-bpm-prod",
      period_start := ⟨2024, 1, 1⟩, period_end := ⟨2024, 1, 31⟩,
      total_cost := 9, currency := "USD",
      costs_by_service :=
        [⟨"A", 5, "USD"⟩, ⟨"C", 5, "USD"⟩, ⟨"B", -1, "USD"⟩],
      daily_costs := [] } 5 (by decide)

theorem digitsRevAux_eq :
    ∀ (fuel n : Nat), n ≤ fuel → digitsRevAux fuel n = Nat.digits 10 n
  | _, 0, _ => by simp [digitsRevAux]
  | 0, n + 1, h => absurd h (by omega)
  | fuel + 1, n + 1, h => by
    rw [digitsRevAux, Nat.digits_def' (by norm_num : (1:Nat) < 10) (Nat.succ_pos n)]
    congr 1
    exact digitsRevAux_eq fuel ((n + 1) / 10) (by omega)

theorem digitsRev_eq_digits (n : Nat) : digitsRev n = Nat.digits 10 n :=
  digitsRevAux_eq n n le_rfl

theorem digitChar_isDigit (d : Nat) (h : d < 10) : (digitChar d).isDigit = true := by
  interval_cases d <;> decide

theorem digitChar_not_ws (d : Nat) (h : d < 10) :
    (digitChar d).isWhitespace = false := by
  interval_cases d <;> decide

theorem digitChar_ne_underscore (d : Nat) (h : d < 10) : digitChar d ≠ '_' := by
  interval_cases d <;> decide

theorem digitChar_ne_dash (d : Nat) (h : d < 10) : digitChar d ≠ '-' := by
  interval_cases d <;> decide

theorem digitChar_ne_plus (d : Nat) (h : d < 10) : digitChar d ≠ '+' := by
  interval_cases d <;> decide

theorem charVal_digitChar (d : Nat) (h : d < 10) : charVal (digitChar d) = d := by
  interval_cases d <;> decide

theorem digitChar_inj (a b : Nat) (ha : a < 10) (hb : b < 10)
    (h : digitChar a = digitChar b) : a = b := by
  have := congrArg charVal h
  rwa [charVal_digitChar a ha, charVal_digitChar b hb] at this

theorem dropWhile_of_head_false (p : Char → Bool) :
    ∀ l : List Char, (∀ c ∈ l, p c = false) → l.dropWhile p = l
  | [], _ => rfl
  | c :: rest, h => by
    rw [List.dropWhile_cons, if_neg]
    simp [h c (List.mem_cons_self c rest)]

theorem strip_of_all_nonws (l : List Char)
    (h : ∀ c ∈ l, c.isWhitespace = false) :
    ((l.dropWhile Char.isWhitespace).reverse.dropWhile Char.isWhitespace).reverse
      = l := by
  rw [dropWhile_of_head_false _ l h, dropWhile_of_head_false _ l.reverse
    (fun c hc => h c (List.mem_reverse.mp hc)), List.reverse_reverse]

theorem digitsTail_of_digits :
    ∀ l : List Char, (∀ c ∈ l, ∃ d, d < 10 ∧ c = digitChar d) →
      digitsTail l = true
  | [], _ => rfl
  | c :: rest, h => by
    obtain ⟨d, hd, rfl⟩ := h c (List.mem_cons_self c rest)
    rw [digitsTail.eq_def]
    simp only [if_neg (digitChar_ne_underscore d hd)]
    rw [digitChar_isDigit d hd, digitsTail_of_digits rest
      (fun c2 hc2 => h c2 (List.mem_cons_of_mem _ hc2))]
    rfl

theorem pyInt_all_digits (l : List Char) (hne : l ≠ [])
    (hd : ∀ c ∈ l, ∃ d, d < 10 ∧ c = digitChar d) :
    pyInt l = some (natVal l : Int) := by
  have hstrip := strip_of_all_nonws l (fun c hc => by
    obtain ⟨d, hdlt, rfl⟩ := hd c hc
    exact digitChar_not_ws d hdlt)
  obtain ⟨c, rest, rfl⟩ : ∃ c rest, l = c :: rest := by
    cases l with
    | nil => exact absurd rfl hne
    | cons a as => exact ⟨a, as, rfl⟩
  obtain ⟨d0, hd0, hc⟩ := hd c (List.mem_cons_self c rest)
  rw [pyInt]
  simp only [hstrip]
  rw [if_neg (by rw [hc]; exact digitChar_ne_dash d0 hd0),
    if_neg (by rw [hc]; exact digitChar_ne_plus d0 hd0)]
  rw [pyIntDigits]
  have hdig : c.isDigit = true := by rw [hc]; exact digitChar_isDigit d0 hd0
  rw [hdig, digitsTail_of_digits rest
    (fun c2 hc2 => hd c2 (List.mem_cons_of_mem _ hc2))]
  have hfil : (c :: rest).filter (fun x => x ≠ '_') = c :: rest := by
    rw [List.filter_eq_self]
    intro a ha
    obtain ⟨d, hdlt, rfl⟩ := hd a ha
    simpa using digitChar_ne_underscore d hdlt
  simp only [hfil]
  have hfil2 : (c :: rest).filter (fun x => !decide (x = '_')) = c :: rest := by
    simpa using hfil
  simp [hfil2]

theorem natVal_go :
    ∀ (ds : List Nat) (a : Nat), (∀ d ∈ ds, d < 10) →
      List.foldl (fun x c => x * 10 + charVal c) a ((ds.map digitChar).reverse)
        = a * 10 ^ ds.length + Nat.ofDigits 10 ds
  | [], a, _ => by simp [Nat.ofDigits]
  | d :: ds, a, h => by
    rw [List.map_cons, List.reverse_cons, List.foldl_append]
    rw [natVal_go ds a (fun x hx => h x (List.mem_cons_of_mem _ hx))]
    simp only [List.foldl_cons, List.foldl_nil, Nat.ofDigits_cons,
      charVal_digitChar d (h d (List.mem_cons_self d ds)), List.length_cons]
    ring

theorem natVal_rev_map (ds : List Nat) (h : ∀ d ∈ ds, d < 10) :
    natVal ((ds.map digitChar).reverse) = Nat.ofDigits 10 ds := by
  simpa [natVal] using natVal_go ds 0 h

theorem natVal_pyStrNat (n : Nat) : natVal (pyStrNat n) = n := by
  by_cases h : n = 0
  · subst h; decide
  · rw [pyStrNat, if_neg h, digitsRev_eq_digits,
      natVal_rev_map _ (fun d hd => Nat.digits_lt_base (by norm_num) hd)]
    exact Nat.ofDigits_digits 10 n

theorem pyStrNat_mem (n : Nat) : ∀ c ∈ pyStrNat n, ∃ d, d < 10 ∧ c = digitChar d := by
  intro c hc
  by_cases h : n = 0
  · subst h
    simp [pyStrNat] at hc
    exact ⟨0, by norm_num, by rw [hc]; decide⟩
  · rw [pyStrNat, if_neg h, digitsRev_eq_digits, List.mem_reverse] at hc
    obtain ⟨d, hd, rfl⟩ := List.mem_map.mp hc
    exact ⟨d, Nat.digits_lt_base (by norm_num) hd, rfl⟩

theorem pyStrNat_ne_nil (n : Nat) : pyStrNat n ≠ [] := by
  by_cases h : n = 0
  · subst h; decide
  · rw [pyStrNat, if_neg h, digitsRev_eq_digits]
    simp [Nat.digits_ne_nil_iff_ne_zero.mpr h]

theorem digits8 (n : Nat) (h1 : 10000000 ≤ n) (h2 : n < 100000000) :
    Nat.digits 10 n = [n % 10, n / 10 % 10, n / 100 % 10, n / 1000 % 10,
      n / 10000 % 10, n / 100000 % 10, n / 1000000 % 10, n / 10000000] := by
  have ten : (1:Nat) < 10 := by norm_num
  have e1 : n / 10 / 10 = n / 100 := by omega
  have e2 : n / 100 / 10 = n / 1000 := by omega
  have e3 : n / 1000 / 10 = n / 10000 := by omega
  have e4 : n / 10000 / 10 = n / 100000 := by omega
  have e5 : n / 100000 / 10 = n / 1000000 := by omega
  have e6 : n / 1000000 / 10 = n / 10000000 := by omega
  rw [Nat.digits_def' ten (show 0 < n by omega)]
  rw [Nat.digits_def' ten (show 0 < n / 10 by omega), e1]
  rw [Nat.digits_def' ten (show 0 < n / 100 by omega), e2]
  rw [Nat.digits_def' ten (show 0 < n / 1000 by omega), e3]
  rw [Nat.digits_def' ten (show 0 < n / 10000 by omega), e4]
  rw [Nat.digits_def' ten (show 0 < n / 100000 by omega), e5]
  rw [Nat.digits_def' ten (show 0 < n / 1000000 by omega), e6]
  rw [Nat.digits_of_lt 10 (n / 10000000) (by omega) (by omega)]

theorem pyStrNat8 (n : Nat) (h1 : 10000000 ≤ n) (h2 : n < 100000000) :
    pyStrNat n = [digitChar (n / 10000000), digitChar (n / 1000000 % 10),
      digitChar (n / 100000 % 10), digitChar (n / 10000 % 10),
      digitChar (n / 1000 % 10), digitChar (n / 100 % 10),
      digitChar (n / 10 % 10), digitChar (n % 10)] := by
  rw [pyStrNat, if_neg (by omega), digitsRev_eq_digits, digits8 n h1 h2]
  rfl

theorem natVal4 (a b c d : Nat) (ha : a < 10) (hb : b < 10) (hc : c < 10)
    (hd : d < 10) :
    natVal [digitChar a, digitChar b, digitChar c, digitChar d]
      = ((a * 10 + b) * 10 + c) * 10 + d := by
  simp only [natVal, List.foldl_cons, List.foldl_nil, charVal_digitChar a ha,
    charVal_digitChar b hb, charVal_digitChar c hc, charVal_digitChar d hd]
  ring

theorem natVal2 (a b : Nat) (ha : a < 10) (hb : b < 10) :
    natVal [digitChar a, digitChar b] = a * 10 + b := by
  simp only [natVal, List.foldl_cons, List.foldl_nil, charVal_digitChar a ha,
    charVal_digitChar b hb]
  ring

theorem mkDate_valid (y m d : Nat) (hy1 : 1 ≤ y) (hy2 : y ≤ 9999)
    (hm1 : 1 ≤ m) (hm2 : m ≤ 12) (hd1 : 1 ≤ d) (hd2 : d ≤ daysInMonth y m) :
    mkDate (y : Int) (m : Int) (d : Int) = some ⟨y, m, d⟩ := by
  have hc : 1 ≤ (y:Int) ∧ (y:Int) ≤ 9999 ∧ 1 ≤ (m:Int) ∧ (m:Int) ≤ 12
      ∧ 1 ≤ (d:Int) ∧ (d:Int) ≤ daysInMonth (y:Int).toNat (m:Int).toNat := by
    simp only [Int.toNat_natCast]
    omega
  rw [mkDate, if_pos hc]
  simp

theorem daysInMonth_le_31 (y m : Nat) : daysInMonth y m ≤ 31 := by
  rw [daysInMonth]
  split_ifs <;> norm_num

theorem pyInt_map_digits (ds : List Nat) (hne : ds ≠ [])
    (h : ∀ x ∈ ds, x < 10) :
    pyInt (ds.map digitChar) = some (natVal (ds.map digitChar) : Int) := by
  apply pyInt_all_digits
  · simpa using hne
  · intro c hc
    obtain ⟨x, hx, rfl⟩ := List.mem_map.mp hc
    exact ⟨x, h x hx, rfl⟩

theorem parseDateVal_int (y m d : Nat) (hy1 : 1000 ≤ y) (hy2 : y ≤ 9999)
    (hm1 : 1 ≤ m) (hm2 : m ≤ 12) (hd1 : 1 ≤ d) (hd2 : d ≤ daysInMonth y m) :
    parseDateVal (.i ((y : Int) * 10000 + (m : Int) * 100 + (d : Int)))
      = some ⟨y, m, d⟩ := by
  have hd31 : d ≤ 31 := le_trans hd2 (daysInMonth_le_31 y m)
  have hi : ((y : Int) * 10000 + (m : Int) * 100 + (d : Int))
      = ((y * 10000 + m * 100 + d : Nat) : Int) := by push_cast; ring
  set n : Nat := y * 10000 + m * 100 + d with hn
  have h1 : 10000000 ≤ n := by omega
  have h2 : n < 100000000 := by omega
  have ht4 : (pyStrNat n).take 4
      = List.map digitChar
          [n / 10000000, n / 1000000 % 10, n / 100000 % 10, n / 10000 % 10] := by
    rw [pyStrNat8 n h1 h2]; rfl
  have ht2a : ((pyStrNat n).drop 4).take 2
      = List.map digitChar [n / 1000 % 10, n / 100 % 10] := by
    rw [pyStrNat8 n h1 h2]; rfl
  have ht2b : ((pyStrNat n).drop 6).take 2
      = List.map digitChar [n / 10 % 10, n % 10] := by
    rw [pyStrNat8 n h1 h2]; rfl
  have hp4 := pyInt_map_digits
    [n / 10000000, n / 1000000 % 10, n / 100000 % 10, n / 10000 % 10]
    (by simp) (by intro x hx; simp at hx; rcases hx with rfl | rfl | rfl | rfl <;> omega)
  have hp2a := pyInt_map_digits [n / 1000 % 10, n / 100 % 10]
    (by simp) (by intro x hx; simp at hx; rcases hx with rfl | rfl <;> omega)
  have hp2b := pyInt_map_digits [n / 10 % 10, n % 10]
    (by simp) (by intro x hx; simp at hx; rcases hx with rfl | rfl <;> omega)
  have hv4 : natVal (List.map digitChar
      [n / 10000000, n / 1000000 % 10, n / 100000 % 10, n / 10000 % 10]) = y := by
    simp only [List.map_cons, List.map_nil]
    rw [natVal4 _ _ _ _ (by omega) (by omega) (by omega) (by omega)]
    omega
  have hv2a : natVal (List.map digitChar [n / 1000 % 10, n / 100 % 10]) = m := by
    simp only [List.map_cons, List.map_nil]
    rw [natVal2 _ _ (by omega) (by omega)]
    omega
  have hv2b : natVal (List.map digitChar [n / 10 % 10, n % 10]) = d := by
    simp only [List.map_cons, List.map_nil]
    rw [natVal2 _ _ (by omega) (by omega)]
    omega
  rw [hv4] at hp4
  rw [hv2a] at hp2a
  rw [hv2b] at hp2b
  simp only [parseDateVal, hi, pyStrInt,
    if_neg (not_lt.mpr (Int.natCast_nonneg n)), Int.toNat_natCast,
    ht4, ht2a, ht2b, hp4, hp2a, hp2b]
  exact mkDate_valid y m d (by omega) hy2 hm1 hm2 hd1 hd2

theorem parseDateVal_iso (y m d : Nat) (suffix : List Char)
    (hy1 : 1 ≤ y) (hy2 : y ≤ 9999) (hm1 : 1 ≤ m) (hm2 : m ≤ 12)
    (hd1 : 1 ≤ d) (hd2 : d ≤ daysInMonth y m) :
    parseDateVal (.s (isoChars y m d ++ suffix)) = some ⟨y, m, d⟩ := by
  have htake : (isoChars y m d ++ suffix).take 10
      = [digitChar (y / 1000 % 10), digitChar (y / 100 % 10),
         digitChar (y / 10 % 10), digitChar (y % 10), '-',
         digitChar (m / 10 % 10), digitChar (m % 10), '-',
         digitChar (d / 10 % 10), digitChar (d % 10)] := rfl
  have hdig : ∀ x : Nat, (digitChar (x % 10)).isDigit = true :=
    fun x => digitChar_isDigit (x % 10) (Nat.mod_lt x (by norm_num))
  have hcv : ∀ x : Nat, charVal (digitChar (x % 10)) = x % 10 :=
    fun x => charVal_digitChar (x % 10) (Nat.mod_lt x (by norm_num))
  have hd31 : d ≤ 31 := le_trans hd2 (daysInMonth_le_31 y m)
  simp only [parseDateVal, fromisoformat10, htake, hdig, hcv]
  rw [if_pos (by simp)]
  have ey0 : y / 1000 % 10 * 1000 + y / 100 % 10 * 100 + y / 10 % 10 * 10 + y % 10
      = y := by omega
  have em0 : m / 10 % 10 * 10 + m % 10 = m := by omega
  have ed0 : d / 10 % 10 * 10 + d % 10 = d := by omega
  have ey : ((y / 1000 % 10 : Nat) : Int) * 1000 + ((y / 100 % 10 : Nat) : Int) * 100
      + ((y / 10 % 10 : Nat) : Int) * 10 + ((y % 10 : Nat) : Int) = (y : Int) := by
    exact_mod_cast congrArg (fun x : Nat => (x : Int)) ey0
  have em : ((m / 10 % 10 : Nat) : Int) * 10 + ((m % 10 : Nat) : Int) = (m : Int) := by
    exact_mod_cast congrArg (fun x : Nat => (x : Int)) em0
  have ed : ((d / 10 % 10 : Nat) : Int) * 10 + ((d % 10 : Nat) : Int) = (d : Int) := by
    exact_mod_cast congrArg (fun x : Nat => (x : Int)) ed0
  rw [ey, em, ed]
  exact mkDate_valid y m d (by omega) hy2 hm1 hm2 hd1 hd2

theorem dateLe_total (a b : Date) : dateLe a b = true ∨ dateLe b a = true := by
  simp only [dateLe, Bool.or_eq_true, Bool.and_eq_true, decide_eq_true_eq]
  omega

theorem dateLe_trans (a b c : Date) :
    dateLe a b = true → dateLe b c = true → dateLe a c = true := by
  simp only [dateLe, Bool.or_eq_true, Bool.and_eq_true, decide_eq_true_eq]
  omega

theorem dailyAscLe_total (a b : DailyCost) :
    dailyAscLe a b = true ∨ dailyAscLe b a = true :=
  dateLe_total a.date b.date

theorem dailyAscLe_trans (a b c : DailyCost) :
    dailyAscLe a b = true → dailyAscLe b c = true → dailyAscLe a c = true :=
  dateLe_trans a.date b.date c.date

/-- C6: an 8-digit integer date and the dashed ISO rendering of the same
calendar date (with any datetime suffix beyond the first 10 characters)
normalize to the same `date`, and the produced `daily_costs` is sorted by
date ascending. -/
theorem claim_C6_date_normalization (y m d : Nat) (suffix : List Char)
    (sub : String) (period_start period_end : Date)
    (serviceRows : List ServiceRow) (dailyRows : List DailyRow) (s : CostSummary)
    (hy1 : 1000 ≤ y) (hy2 : y ≤ 9999) (hm1 : 1 ≤ m) (hm2 : m ≤ 12)
    (hd1 : 1 ≤ d) (hd2 : d ≤ daysInMonth y m)
    (h : buildCostSummary sub period_start period_end serviceRows dailyRows = some s) :
    parseDateVal (.i ((y : Int) * 10000 + (m : Int) * 100 + (d : Int)))
      = some ⟨y, m, d⟩
    ∧ parseDateVal (.s (isoChars y m d ++ suffix)) = some ⟨y, m, d⟩
    ∧ s.daily_costs.Pairwise (fun a b => dateLe a.date b.date = true) := by
  refine ⟨parseDateVal_int y m d hy1 hy2 hm1 hm2 hd1 hd2,
    parseDateVal_iso y m d suffix (by omega) hy2 hm1 hm2 hd1 hd2, ?_⟩
  cases hdl : parseDailyRows dailyRows with
  | none => rw [buildCostSummary] at h; simp [hdl] at h
  | some dl =>
    rw [buildCostSummary] at h
    simp only [hdl, Option.some.injEq] at h
    have hs : s.daily_costs = sSort dailyAscLe dl := by rw [← h]
    rw [hs]
    exact sSort_pairwise dailyAscLe dailyAscLe_total dailyAscLe_trans dl

theorem claim_C6_date_normalization_witness :
    ((1000 : Nat) ≤ 2024 ∧ (15 : Nat) ≤ daysInMonth 2024 1
      ∧ buildCostSummary "sub" ⟨2024, 1, 1⟩ ⟨2024, 1, 31⟩ []
          [⟨10, .i 20240102⟩, ⟨5, .i 20240101⟩]
        = some { subscription_id := "sub",
                 subscription_name := "virtual-bpm-prod",
                 period_start := ⟨2024, 1, 1⟩, period_end := ⟨2024, 1, 31⟩,
                 total_cost := 0, currency := "USD", costs_by_service := [],
                 daily_costs := [⟨⟨2024, 1, 1⟩, 5, "USD"⟩,
                                 ⟨⟨2024, 1, 2⟩, 10, "USD"⟩] })
    ∧ (parseDateVal (.i ((2024 : Int) * 10000 + (1 : Int) * 100 + (15 : Int)))
        = some ⟨2024, 1, 15⟩
      ∧ parseDateVal (.s (isoChars 2024 1 15 ++ "T00:00:00Z".toList))
        = some ⟨2024, 1, 15⟩
      ∧ ([(⟨⟨2024, 1, 1⟩, 5, "USD"⟩ : DailyCost),
          ⟨⟨2024, 1, 2⟩, 10, "USD"⟩].Pairwise
            (fun a b => dateLe a.date b.date = true))) := by
  refine ⟨⟨by decide, by decide, by decide⟩, ?_⟩
  exact claim_C6_date_normalization 2024 1 15 ("T00:00:00Z".toList) "sub"
    ⟨2024, 1, 1⟩ ⟨2024, 1, 31⟩ []
    [⟨10, .i 20240102⟩, ⟨5, .i 20240101⟩]
    { subscription_id := "sub", subscription_name := "virtual-bpm-prod",
      period_start := ⟨2024, 1, 1⟩, period_end := ⟨2024, 1, 31⟩,
      total_cost := 0, currency := "USD", costs_by_service := [],
      daily_costs := [⟨⟨2024, 1, 1⟩, 5, "USD"⟩, ⟨⟨2024, 1, 2⟩, 10, "USD"⟩] }
    (by decide) (by decide) (by decide) (by decide) (by decide) (by decide)
    (by decide)

theorem lastDayOfMonth_eq (y m dday : Nat) (hm1 : 1 ≤ m) (hm2 : m ≤ 12) :
    lastDayOfMonth ⟨y, m, dday⟩ = ⟨y, m, daysInMonth y m⟩ := by
  have h4 : ∀ dd : Date, addDays dd 4 = nextDay (nextDay (nextDay (nextDay dd))) :=
    fun dd => rfl
  have hs1 : ∀ dd : Date, subDays dd 1 = prevDay dd := fun dd => rfl
  simp only [lastDayOfMonth, h4, hs1]
  interval_cases m <;> cases hl : isLeap y <;>
    simp [nextDay, prevDay, daysInMonth, hl]

/-- C7: on a cache miss with a month-to-date cost `c` and current
day-of-month `dday > 0`, `get_forecast` estimates `c / dday * days_in_month`
rounded to two decimals, where `days_in_month` comes from the
day-28-plus-4-days truncation and equals the calendar month length; a
day-of-month of 0 yields estimate 0; the 150/15/30 case gives 300. -/
theorem claim_C7_forecast (sub : String) (y m dday : Nat) (c : ℚ)
    (rest : List ℚ) (more : List (List ℚ))
    (hm1 : 1 ≤ m) (hm2 : m ≤ 12) (hd1 : 1 ≤ dday) :
    get_forecast sub ⟨y, m, dday⟩ ((c :: rest) :: more)
      = some { subscription_id := sub,
               forecast_period_end := ⟨y, m, daysInMonth y m⟩,
               estimated_total := round2 (c / (dday : ℚ) * (daysInMonth y m : ℚ)),
               currency := "USD" }
    ∧ get_forecast sub ⟨y, m, 0⟩ ((c :: rest) :: more)
      = some { subscription_id := sub,
               forecast_period_end := ⟨y, m, daysInMonth y m⟩,
               estimated_total := round2 0, currency := "USD" }
    ∧ get_forecast "s" ⟨2024, 4, 15⟩ [[150]]
      = some { subscription_id := "s", forecast_period_end := ⟨2024, 4, 30⟩,
               estimated_total := 300, currency := "USD" } := by
  have hld := lastDayOfMonth_eq y m dday hm1 hm2
  have hld0 := lastDayOfMonth_eq y m 0 hm1 hm2
  refine ⟨?_, ?_, ?_⟩
  · simp only [get_forecast, currentCostOf, hld, List.head?]
    rw [if_pos (by omega : dday > 0)]
  · simp only [get_forecast, currentCostOf, hld0, List.head?]
    rw [if_neg (by omega : ¬(0 : Nat) > 0)]
  · decide

theorem claim_C7_forecast_witness :
    ((1 : Nat) ≤ 4 ∧ (4 : Nat) ≤ 12 ∧ (1 : Nat) ≤ 15)
    ∧ get_forecast "s" ⟨2024, 4, 15⟩ [[150]]
      = some { subscription_id := "s", forecast_period_end := ⟨2024, 4, 30⟩,
               estimated_total := 300, currency := "USD" } := by
  refine ⟨by decide, ?_⟩
  exact (claim_C7_forecast "s" 2024 4 15 150 [] []
    (by decide) (by decide) (by decide)).2.2

theorem pyStrNat_inj (a b : Nat) (h : pyStrNat a = pyStrNat b) : a = b := by
  have h2 := congrArg natVal h
  rwa [natVal_pyStrNat, natVal_pyStrNat] at h2

theorem pyStrNat_head_ne_dash (n : Nat) : ∀ t, pyStrNat n ≠ '-' :: t := by
  intro t h
  have hm : '-' ∈ pyStrNat n := by rw [h]; exact List.mem_cons_self _ _
  obtain ⟨d, hd, heq⟩ := pyStrNat_mem n '-' hm
  exact digitChar_ne_dash d hd heq.symm

theorem pyStrInt_inj (a b : Int) (h : pyStrInt a = pyStrInt b) : a = b := by
  rw [pyStrInt, pyStrInt] at h
  by_cases ha : a < 0 <;> by_cases hb : b < 0
  · rw [if_pos ha, if_pos hb] at h
    injection h with h1 htl
    have h2 := pyStrNat_inj _ _ htl
    omega
  · rw [if_pos ha, if_neg hb] at h
    exact absurd h.symm (pyStrNat_head_ne_dash _ _)
  · rw [if_neg ha, if_pos hb] at h
    exact absurd h (pyStrNat_head_ne_dash _ _)
  · rw [if_neg ha, if_neg hb] at h
    have h2 := pyStrNat_inj _ _ h
    omega

/-- C9: distinct `days` arguments give distinct `costs_` cache keys, every
`costs_` key differs from the `forecast` key, and a cache write or read on
one key leaves every other key's entry untouched, so
`get_cost_summary(30)`, `get_cost_summary(7)` and `get_forecast` never
collide in the cache. -/
theorem claim_C9_distinct_cache_keys (d1 d2 : Int) (V : Type) (c : CostCache V)
    (now : ℚ) (v : V) (h : d1 ≠ d2) :
    costsCacheKey d1 ≠ costsCacheKey d2
    ∧ costsCacheKey d1 ≠ forecastCacheKey
    ∧ (CostCache.set c now (costsCacheKey d1) v).store (costsCacheKey d2)
        = c.store (costsCacheKey d2)
    ∧ (CostCache.set c now (costsCacheKey d1) v).store forecastCacheKey
        = c.store forecastCacheKey
    ∧ ((CostCache.get c now (costsCacheKey d1)).2).store (costsCacheKey d2)
        = c.store (costsCacheKey d2) := by
  have hne : costsCacheKey d1 ≠ costsCacheKey d2 := by
    intro he
    apply h
    have hstr : pyStrInt d1 = pyStrInt d2 := by
      simpa [costsCacheKey] using he
    exact pyStrInt_inj d1 d2 hstr
  have hnf : costsCacheKey d1 ≠ forecastCacheKey := by
    intro he
    simp [costsCacheKey, forecastCacheKey] at he
  refine ⟨hne, hnf, ?_, ?_, ?_⟩
  · simp [CostCache.set, Ne.symm hne]
  · simp [CostCache.set, Ne.symm hnf]
  · rw [CostCache.get]
    cases hst : c.store (costsCacheKey d1) with
    | none => rfl
    | some tv =>
      obtain ⟨ts, vv⟩ := tv
      by_cases ht : now - ts < c.ttl
      · simp [ht]
      · simp [ht, Ne.symm hne]

theorem claim_C9_distinct_cache_keys_witness :
    ((30 : Int) ≠ 7)
    ∧ (costsCacheKey 30 ≠ costsCacheKey 7
      ∧ costsCacheKey 30 ≠ forecastCacheKey
      ∧ (CostCache.set { ttl := 300, store := fun _ => none } 0
            (costsCacheKey 30) ()).store (costsCacheKey 7)
          = ({ ttl := 300, store := fun _ => none } : CostCache Unit).store
              (costsCacheKey 7)
      ∧ (CostCache.set { ttl := 300, store := fun _ => none } 0
            (costsCacheKey 30) ()).store forecastCacheKey
          = ({ ttl := 300, store := fun _ => none } : CostCache Unit).store
              forecastCacheKey
      ∧ ((CostCache.get { ttl := 300, store := fun _ => none } 0
            (costsCacheKey 30)).2).store (costsCacheKey 7)
          = ({ ttl := 300, store := fun _ => none } : CostCache Unit).store
              (costsCacheKey 7)) := by
  refine ⟨by decide, ?_⟩
  exact claim_C9_distinct_cache_keys 30 7 Unit
    { ttl := 300, store := fun _ => none } 0 () (by decide)
